import Mathlib

/-!
Verification of the time-series acquisition and total-return engine of the
Analisi-Fondi repository.  Shallow embedding: pandas Series cells are
modelled as `Option ℚ` (`none` stands for NaN), DataFrames as lists of row
records, dates as natural numbers, prices and returns as rationals.
Definitions are translated from the Python source in
`src/data_collector.py`, `src/data_processor.py` and
`src/data_validator.py`; network and filesystem effects are abstracted
into explicit inputs of the modelled functions.
-/

namespace AnalisiFondi

/-- One row of a price DataFrame: columns Price, Dividends, Capital Gains.
A `none` cell models a NaN value. -/
structure TRRow where
  price : Option ℚ
  dividend : Option ℚ
  capitalGain : Option ℚ
deriving DecidableEq

/-- A price DataFrame: its rows plus the optional constant boolean column
the code calls `_is_adjusted` (`none` = column absent; when present
the code reads `data['_is_adjusted'].iloc[0]`, so a single boolean models
it). -/
structure TRFrame where
  rows : List TRRow
  isAdjustedCol : Option Bool
deriving DecidableEq

/-- Per-row combined distribution, `dividends.fillna(0) +
capital_gains.fillna(0)`.  An absent Dividends or Capital Gains column is
replaced by the scalar series 0.0 in the source, which coincides with the
all-NaN column after `fillna(0)`, so both are the `none`-cell case here. -/
def distOf (r : TRRow) : ℚ := r.dividend.getD 0 + r.capitalGain.getD 0

/-- One loop step of `DataProcessor.calculate_total_return` for adjusted
prices (data_processor.py lines 109-117): when the guard
`pd.notna(prev) and prev != 0 and pd.notna(curr)` holds, the running value
is multiplied by `curr / prev`; otherwise it is carried forward. -/
def trStepAdj (prev? : Option ℚ) (r : TRRow) (acc : Option ℚ) : Option ℚ :=
  match prev?, r.price with
  | some p, some c => if p ≠ 0 then acc.map (fun t => t * (c / p)) else acc
  | _, _ => acc

/-- One loop step of `DataProcessor.calculate_total_return` for unadjusted
prices (data_processor.py lines 159-184): with the same guard, the day
value is `curr + distribution` whenever the distribution is positive —
with no test on the price change — and the multiplier is
`total_value / prev`. -/
def trStepUnadj (prev? : Option ℚ) (r : TRRow) (acc : Option ℚ) : Option ℚ :=
  match prev?, r.price with
  | some p, some c =>
      if p ≠ 0 then
        acc.map (fun t => t * ((if 0 < distOf r then c + distOf r else c) / p))
      else acc
  | _, _ => acc

/-- The `for i in range(1, len(prices))` loop shared by both branches of
`calculate_total_return`: `prev?` holds `prices.iloc[i-1]` and `acc` the
running value `total_return.iloc[i-1]`. -/
def trLoop (step : Option ℚ → TRRow → Option ℚ → Option ℚ) :
    Option ℚ → Option ℚ → List TRRow → List (Option ℚ)
  | _, _, [] => []
  | prev?, acc, r :: rs =>
      let acc2 := step prev? r acc
      acc2 :: trLoop step r.price acc2 rs

/-- `DataProcessor.calculate_total_return` (data_processor.py lines
62-198).  Returns one value per input row, seeded with
`total_return.iloc[0] = prices.iloc[0]`; the `_is_adjusted` flag defaults
to False when the column is absent (lines 94-97).  The final
total-return-vs-price-return comparison in the source only emits a
warning and does not change the returned series, so it is not part of the
value. -/
def calculate_total_return (f : TRFrame) : List (Option ℚ) :=
  match f.rows with
  | [] => []
  | r0 :: rs =>
      let step := if f.isAdjustedCol.getD false then trStepAdj else trStepUnadj
      r0.price :: trLoop step r0.price r0.price rs

/-- One loop step of `DataCollector._calculate_adj_close_manual`
(data_collector.py lines 228-266): on a distribution day the distribution
is added only when the price dropped by more than 1%
(`price_change_pct < -0.01`); otherwise the bare `curr / prev` ratio is
used. -/
def adjStep (prev? curr? : Option ℚ) (dist : ℚ) (acc : Option ℚ) : Option ℚ :=
  match prev?, curr? with
  | some p, some c =>
      if p ≠ 0 then
        acc.map (fun t =>
          t * (if 0 < dist then
                 if (c - p) / p < -(1 / 100) then (c + dist) / p else c / p
               else c / p))
      else acc
  | _, _ => acc

/-- The `for i in range(1, len(close))` loop of
`_calculate_adj_close_manual`, over pairs of (Close cell, distribution). -/
def adjLoop : Option ℚ → Option ℚ → List (Option ℚ × ℚ) → List (Option ℚ)
  | _, _, [] => []
  | prev?, acc, (c, d) :: rest =>
      let acc2 := adjStep prev? c d acc
      acc2 :: adjLoop c acc2 rest

/-- Pointwise `dividends.fillna(0) + capital_gains.fillna(0)`. -/
def combineDist (divs cgs : List (Option ℚ)) : List ℚ :=
  (divs.zip cgs).map (fun p => p.1.getD 0 + p.2.getD 0)

/-- `DataCollector._calculate_adj_close_manual` (data_collector.py lines
193-268): reconstructs an adjusted close from Close, Dividends and
Capital Gains series, seeded with `adj_close.iloc[0] = close.iloc[0]`. -/
def calcAdjCloseManual (close divs cgs : List (Option ℚ)) : List (Option ℚ) :=
  match close with
  | [] => []
  | c0 :: rest => c0 :: adjLoop c0 c0 (rest.zip ((combineDist divs cgs).drop 1))

/-- Boolean list-prefix test, used to model Python string operations
over character lists. -/
def listPrefixB : List Char → List Char → Bool
  | [], _ => true
  | _ :: _, [] => false
  | a :: as, b :: bs => a == b && listPrefixB as bs

/-- Boolean list-infix test, used for substring matching. -/
def listInfixB (pat : List Char) : List Char → Bool
  | [] => pat.isEmpty
  | b :: bs => listPrefixB pat (b :: bs) || listInfixB pat bs

/-- Python `s.startswith(pre)`. -/
def pyStartsWith (s pre : String) : Bool := listPrefixB pre.data s.data

/-- Python `s.endswith(suf)`. -/
def pyEndsWith (s suf : String) : Bool :=
  listPrefixB suf.data.reverse s.data.reverse

/-- Python `len(s)`. -/
def pyLen (s : String) : ℕ := s.data.length

/-- Python truthiness of a string: non-empty. -/
def pyNonempty (s : String) : Bool := !s.data.isEmpty

/-- Python `pat in s` on strings. -/
def strContains (s pat : String) : Bool := listInfixB pat.data s.data

/-- `DataCollector._is_us_mutual_fund` (data_collector.py lines 78-101):
an identifier that is non-empty and starts with the 'US' prefix, or a
ticker that is a non-empty 5-letter code ending in 'X', each suffices on
its own. -/
def is_us_mutual_fund (isin : String) (ticker : Option String) : Bool :=
  if pyNonempty isin && pyStartsWith isin "US" then true
  else
    match ticker with
    | some t => pyNonempty t && (pyLen t == 5) && pyEndsWith t "X"
    | none => false

/-- One row of the yfinance `history` DataFrame: Close, Adj Close,
Dividends, Capital Gains cells. -/
structure YRow where
  close : Option ℚ
  adjClose : Option ℚ
  dividend : Option ℚ
  capitalGain : Option ℚ
deriving DecidableEq

/-- The yfinance `history` DataFrame together with which of its optional
columns are present, as tested by `'Adj Close' in hist.columns` etc. -/
structure YHist where
  rows : List YRow
  hasAdjCloseCol : Bool
  hasDividendsCol : Bool
  hasCapitalGainsCol : Bool
deriving DecidableEq

/-- Effective Dividends cell of a history row: the column when present,
else the scalar series `pd.Series(0.0, ...)`. -/
def yahooDiv (h : YHist) (r : YRow) : Option ℚ :=
  if h.hasDividendsCol then r.dividend else some 0

/-- Effective Capital Gains cell of a history row: the column when
present, else the scalar series `pd.Series(0.0, ...)`. -/
def yahooCg (h : YHist) (r : YRow) : Option ℚ :=
  if h.hasCapitalGainsCol then r.capitalGain else some 0

/-- `DataCollector._get_yahoo_data_smart` (data_collector.py lines
270-353) applied to the history DataFrame the provider returned (the
network call itself is abstracted into the `h` argument; a provider error
is the `none` result of the corresponding `FetchEnv` field).  The closing
fillna(0)/astype(float) block (lines 338-347) is folded into each
branch. -/
def yahooSmart (h : YHist) (isUsMF : Bool) : Option TRFrame :=
  if h.rows.isEmpty then none
  else if isUsMF then
    if !h.hasAdjCloseCol then
      let adj := calcAdjCloseManual (h.rows.map (fun r => r.close))
        (h.rows.map (yahooDiv h)) (h.rows.map (yahooCg h))
      some ⟨adj.map (fun p => ⟨p, some 0, some 0⟩), some true⟩
    else
      some ⟨h.rows.map (fun r => ⟨r.adjClose, some 0, some 0⟩), some true⟩
  else
    some ⟨h.rows.map (fun r =>
      ⟨r.close, some ((yahooDiv h r).getD 0), some ((yahooCg h r).getD 0)⟩),
      some false⟩

/-- The JSON body returned by the EOD Historical Data endpoint, reduced to
what `_get_eod_total_return` reads: per-date (close, adjusted_close)
cells and which of the two columns exist. -/
structure EodResp where
  rows : List (Option ℚ × Option ℚ)
  hasAdjustedClose : Bool
  hasClose : Bool
deriving DecidableEq

/-- DataFrame construction of `DataCollector._get_eod_total_return`
(data_collector.py lines 579-631) from a successfully parsed response: an
`adjusted_close` column yields an adjusted frame with zeroed
distributions, a bare `close` column an unadjusted frame, anything else
falls through to None.  The API-key guard lives in the resolver model. -/
def eodFrame (resp : EodResp) : Option TRFrame :=
  if resp.rows.isEmpty then none
  else if resp.hasAdjustedClose then
    some ⟨resp.rows.map (fun p => ⟨p.2, some 0, some 0⟩), some true⟩
  else if resp.hasClose then
    some ⟨resp.rows.map (fun p => ⟨p.1, some 0, some 0⟩), some false⟩
  else none

/-- Source names that force `_is_adjusted = True` when backfilling an old
cache entry (data_collector.py line 383). -/
def adjSourceNames : List String :=
  ["EOD Historical Data", "Alpha Vantage", "Financial Modeling Prep"]

/-- `any(adj_source in source for adj_source in [...])`. -/
def inferAdjusted (source : String) : Bool :=
  adjSourceNames.any (fun p => strContains source p)

/-- A cached historical DataFrame as deserialized from the cache file,
before backfilling: the Dividends, Capital Gains and `_is_adjusted`
columns may be absent (old cache formats). -/
structure CachedDF where
  prices : List (Option ℚ)
  divCol : Option (List (Option ℚ))
  cgCol : Option (List (Option ℚ))
  adjCol : Option Bool
deriving DecidableEq

/-- The backfill block of `get_historical_data` (data_collector.py lines
379-401): a missing `_is_adjusted` column is inferred from the recorded
source name; missing Dividends / Capital Gains columns are added as the
scalar 0.0 (both branches of the source's conditional assign 0.0).
Columns that are already present are kept unchanged. -/
def backfillCached (c : CachedDF) (source : String) : TRFrame :=
  let adj := match c.adjCol with
    | some b => b
    | none => inferAdjusted source
  let n := c.prices.length
  let divs := match c.divCol with
    | some l => l
    | none => List.replicate n (some 0)
  let cgs := match c.cgCol with
    | some l => l
    | none => List.replicate n (some 0)
  ⟨(List.range n).map (fun i =>
      ⟨(c.prices[i]?).getD none, (divs[i]?).getD none, (cgs[i]?).getD none⟩),
    some adj⟩

/-- Whether `data is not None and not data.empty` holds. -/
def nonemptyDF : Option TRFrame → Bool
  | some f => !f.rows.isEmpty
  | none => false

/-- Whether `data is not None and not data.empty and len(data) > 10`
holds — the success test of the exchange-suffix, direct-identifier and
IR attempts. -/
def bigDF : Option TRFrame → Bool
  | some f => !f.rows.isEmpty && decide (f.rows.length > 10)
  | none => false

/-- Outcome of each external fetch attempt made by
`DataCollector.get_historical_data`; network results are inputs of the
model.  `yahooExchange e` is the result of
`_get_yahoo_data_smart(f"{isin}.{e}", ...)`; each Yahoo field is the
frame produced by `yahooSmart` on that attempt's history (or `none`). -/
structure FetchEnv where
  eodKeySet : Bool
  eodResult : Option TRFrame
  tickerMap : Option String
  yahooTicker : Option TRFrame
  yahooExchange : String → Option TRFrame
  yahooDirect : Option TRFrame
  yahooIR : Option TRFrame
  scrapeResult : Option TRFrame

/-- Exchange suffixes tried by Method 2, in source order
(data_collector.py line 474). -/
def exchangesList : List String :=
  ["L", "PA", "DE", "MI", "AS", "SW", "BR", "VI", "IR", "LN", "LS"]

/-- The `for exchange in exchanges` loop of Method 2: each iteration
overwrites `data`; the loop breaks at the first result with more than 10
records, tagging the source. -/
def exchangeLoop (env : FetchEnv) (isin : String) :
    List String → Option TRFrame × Option String → Option TRFrame × Option String
  | [], st => st
  | e :: es, (_, src) =>
      let d := env.yahooExchange e
      if bigDF d then (d, some ("Yahoo Finance (" ++ isin ++ "." ++ e ++ ")"))
      else exchangeLoop env isin es (d, src)

/-- The source cascade of `DataCollector.get_historical_data`
(data_collector.py lines 445-550), reached on a cache miss; returns the
final `data` and `source_used`.  Mirrors the source control flow: Method
1 assigns `data` unconditionally whenever a ticker mapping exists, Method
0 and Method 1 test only non-emptiness, and the Method 3 guard
`data is None or data.empty and isin.startswith('IE')` parses as
`data is None or (data.empty and ...)`.  Method 4 (scraping) never sets
`source_used`.  Validation and cache writing do not alter the returned
data. -/
def getHistoricalFetch (isin : String) (env : FetchEnv) :
    Option TRFrame × Option String :=
  let data0 : Option TRFrame := if env.eodKeySet then env.eodResult else none
  let src0 : Option String :=
    if nonemptyDF data0 then some "EOD Historical Data API" else none
  let st1 :=
    match env.tickerMap with
    | some t =>
        let d := env.yahooTicker
        (d, if nonemptyDF d then some ("Yahoo Finance (ticker: " ++ t ++ ")")
            else src0)
    | none => (data0, src0)
  let st2 :=
    if !nonemptyDF st1.1 then
      let stA := exchangeLoop env isin exchangesList st1
      if !nonemptyDF stA.1 && pyNonempty isin then
        let d := env.yahooDirect
        (d, if bigDF d then some "Yahoo Finance (ISIN diretto)" else stA.2)
      else stA
    else st1
  let st3 :=
    if (match st2.1 with
        | none => true
        | some f => f.rows.isEmpty && pyStartsWith isin "IE") then
      let d := env.yahooIR
      (d, if bigDF d then some ("Yahoo Finance (" ++ isin ++ ".IR)") else st2.2)
    else st2
  if !nonemptyDF st3.1 then (env.scrapeResult, st3.2) else st3

/-- A cache entry as far as the cached branch of `get_historical_data`
reads it: the combined result of the two `pd.read_json` attempts on the
`data` payload (`none` = both attempts raised) and the recorded source
string. -/
structure CacheEntry where
  parsed : Option CachedDF
  source : String

/-- State of the cache file for this identifier.  `absent` covers both a
missing file and one older than 24 hours (`_load_cache` returns None);
`unparsable` is a present, fresh file whose JSON `json.load` cannot parse
— `_load_cache` (data_collector.py lines 64-71) wraps that call in no
try/except, so it raises. -/
inductive CacheFile where
  | absent
  | unparsable
  | entry (e : CacheEntry)

/-- What the caller of `get_historical_data` observes. -/
inductive FetchOutcome where
  | raised
  | value (v : Option TRFrame)
deriving DecidableEq

/-- `DataCollector.get_historical_data` (data_collector.py lines
355-550): a fresh cache entry whose payload parses is backfilled and
returned; a fresh entry whose payload fails both parse attempts returns
None without refetching (the nested `except: return None` of lines
404-443); an unparsable cache file raises out of `_load_cache`; only an
absent or stale file reaches the source cascade. -/
def getHistoricalData (cf : CacheFile) (isin : String) (env : FetchEnv) :
    FetchOutcome :=
  match cf with
  | .unparsable => .raised
  | .absent => .value (getHistoricalFetch isin env).1
  | .entry e =>
      match e.parsed with
      | some cdf => .value (some (backfillCached cdf e.source))
      | none => .value none

/-- Day-over-day percentage changes of a NaN-free series:
`pct_change().dropna()`, which on such a series drops exactly the leading
NaN.  (Over ℚ a zero previous value yields the junk quotient 0 instead of
pandas' infinity; the theorems about this function assume positive
prices, where the two semantics agree.) -/
def dailyReturns : List ℚ → List ℚ
  | x :: y :: rest => (y - x) / x :: dailyReturns (y :: rest)
  | _ => []

/-- `daily_returns.abs().max()`, 0 on the empty list. -/
def maxAbs (l : List ℚ) : ℚ := (l.map (fun r => |r|)).foldr max 0

/-- Result of `DataValidator.validate_consistency`: the returned boolean,
plus whether the soft `warnings.warn` branch fired.  The human-readable
message is not modelled. -/
structure ConsistencyResult where
  passed : Bool
  warned : Bool
deriving DecidableEq

/-- `DataValidator.validate_consistency` (data_validator.py lines
74-117) on the Price column (cells `none` = NaN): fewer than 2 rows, or
fewer than 2 non-NaN prices, fail outright; otherwise any |change| above
the 20% `max_daily_change` is a hard failure, and changes above the 10%
`suspicious_threshold` with none above 20% pass with a warning. -/
def validate_consistency (rows : List (Option ℚ)) : ConsistencyResult :=
  if rows.length < 2 then ⟨false, false⟩
  else
    let prices := rows.filterMap id
    if prices.length < 2 then ⟨false, false⟩
    else
      let rets := dailyReturns prices
      let suspicious := rets.filter (fun r => decide (|r| > 1/10))
      if !suspicious.isEmpty then
        if maxAbs rets > 1/5 then ⟨false, false⟩ else ⟨true, true⟩
      else ⟨true, false⟩

/-- Index lookup in a date-indexed series. -/
def lookupDate (s : List (ℕ × ℚ)) (d : ℕ) : Option ℚ :=
  (s.find? (fun p => p.1 == d)).map (fun p => p.2)

/-- `fund_prices.align(benchmark_prices, join='inner')`: the (fund,
benchmark) value pairs at the dates common to both series.  For
date-sorted inputs this is pandas' inner alignment. -/
def alignedPairs (fund bench : List (ℕ × ℚ)) : List (ℚ × ℚ) :=
  fund.filterMap (fun p => (lookupDate bench p.1).map (fun w => (p.2, w)))

/-- Mean of a list of rationals (junk 0 on the empty list, never reached
under the length guards of the callers). -/
def sampleMean (l : List ℚ) : ℚ := l.sum / l.length

/-- `Series.var()`: sample variance with the pandas default ddof = 1. -/
def sampleVariance (l : List ℚ) : ℚ :=
  ((l.map (fun x => (x - sampleMean l) ^ 2)).sum) / (l.length - 1)

/-- `Series.cov(other)` for two equal-length, NaN-free series: sample
covariance with ddof = 1. -/
def sampleCov (xs ys : List ℚ) : ℚ :=
  (((xs.zip ys).map (fun p => (p.1 - sampleMean xs) * (p.2 - sampleMean ys))).sum)
    / (xs.length - 1)

/-- Python `round` ties-to-even on a rational. -/
def roundHalfEven (q : ℚ) : ℤ :=
  if q - ⌊q⌋ < 1/2 then ⌊q⌋
  else if 1/2 < q - ⌊q⌋ then ⌊q⌋ + 1
  else if ⌊q⌋ % 2 = 0 then ⌊q⌋ else ⌊q⌋ + 1

/-- Python `round(x, 2)`. -/
def round2 (q : ℚ) : ℚ := (roundHalfEven (q * 100) : ℚ) / 100

/-- `DataProcessor.calculate_beta` (data_processor.py lines 381-429).
Series are date-indexed rational sequences (the `is None` guards have no
counterpart at this type, and the `np.isnan` guards never fire over ℚ).
After `pct_change().dropna()` both return series carry the same index, so
the second `align` of the source is the identity and is not repeated. -/
def calculate_beta (fund bench : List (ℕ × ℚ)) : Option ℚ :=
  if fund.isEmpty || bench.isEmpty then none
  else
    let aligned := alignedPairs fund bench
    if aligned.length < 30 then none
    else
      let fundRets := dailyReturns (aligned.map Prod.fst)
      let benchRets := dailyReturns (aligned.map Prod.snd)
      if fundRets.length < 30 then none
      else
        let v := sampleVariance benchRets
        if 0 < v then some (round2 (sampleCov fundRets benchRets / v))
        else none

/-- `config.BASE_VALUE`. -/
def BASE_VALUE : ℚ := 100

/-- The series kept by `create_comparison_dataframe`: those with a
non-empty normalized DataFrame. -/
def activeSeries (ss : List (List (ℕ × ℚ))) : List (List (ℕ × ℚ)) :=
  ss.filter (fun s => !s.isEmpty)

/-- `start_dates`: the first index entry of each kept series (normalized
series are date-sorted, so `series.index[0]` is the first available
date). -/
def startDates (ss : List (List (ℕ × ℚ))) : List ℕ :=
  (activeSeries ss).filterMap (fun s => s.head?.map Prod.fst)

/-- Python `max` over a list of dates (0 on the empty list; the caller
guards non-emptiness). -/
def listMax (l : List ℕ) : ℕ := l.foldr max 0

/-- `common_start_date`: the caller's override when given, else the
latest first-available date. -/
def commonStartDate (ss : List (List (ℕ × ℚ))) (custom : Option ℕ) : ℕ :=
  match custom with
  | some d => d
  | none => listMax (startDates ss)

/-- Sorted duplicate-free insertion of a date, building the union index
`pd.concat(all_series, axis=1)` produces. -/
def insertDate (d : ℕ) : List ℕ → List ℕ
  | [] => [d]
  | x :: xs =>
      if d < x then d :: x :: xs
      else if d = x then x :: xs
      else x :: insertDate d xs

/-- The union of the kept series' date indexes (sorted, duplicate-free),
i.e. the index of `pd.concat(all_series, axis=1)`. -/
def unionDates (ss : List (List (ℕ × ℚ))) : List ℕ :=
  (((activeSeries ss).map (fun s => s.map Prod.fst)).flatten).foldr insertDate []

/-- `comparison_df[comparison_df.index >= common_start_date]`. -/
def filteredDates (ss : List (List (ℕ × ℚ))) (custom : Option ℕ) : List ℕ :=
  (unionDates ss).filter (fun d => commonStartDate ss custom ≤ d)

/-- One concatenated column: the series' value at each index date, NaN
where the series has no observation. -/
def rawCol (s : List (ℕ × ℚ)) (dates : List ℕ) : List (Option ℚ) :=
  dates.map (lookupDate s)

/-- Position and value of the first non-NaN cell of a column
(`col_data = comparison_df[col].dropna(); col_data.index[0]`). -/
def findFirstSome : List (Option ℚ) → Option (ℕ × ℚ)
  | [] => none
  | none :: rest => (findFirstSome rest).map (fun p => (p.1 + 1, p.2))
  | some v :: _ => some (0, v)

/-- The per-column re-normalization of `create_comparison_dataframe`
(data_processor.py lines 698-710): rescale by the first valid value, then
pin that cell to exactly the base value.  The source also checks
`first_valid_idx >= common_start_date` (always true after the index
filter, kept for faithfulness) and `pd.notna(first_valid_value)` (always
true for a ℚ). -/
def renormalizeCol (dates : List ℕ) (common : ℕ) (col : List (Option ℚ)) :
    List (Option ℚ) :=
  match findFirstSome col with
  | none => col
  | some (i, v) =>
      if common ≤ (dates[i]?).getD 0 ∧ v ≠ 0 then
        (col.map (Option.map (fun x => x / v * BASE_VALUE))).set i (some BASE_VALUE)
      else col

/-- `comparison_df.ffill()` on one column; the first argument is the last
observation carried forward. -/
def ffillCol : Option ℚ → List (Option ℚ) → List (Option ℚ)
  | _, [] => []
  | last, none :: rest => last :: ffillCol last rest
  | _, some v :: rest => some v :: ffillCol (some v) rest

/-- The final loop of `create_comparison_dataframe` (lines 716-719):
when the common start date is in the index, every non-NaN cell at that
date is forced to exactly the base value. -/
def forceCol (dates : List ℕ) (common : ℕ) (col : List (Option ℚ)) :
    List (Option ℚ) :=
  if common ∈ dates then
    (dates.zip col).map (fun p =>
      if p.1 = common && p.2.isSome then some BASE_VALUE else p.2)
  else col

/-- `DataProcessor.create_comparison_dataframe` (data_processor.py lines
646-721) over one normalized series per fund (date-indexed, NaN-free, as
produced by `normalize_to_base100`); the result is the table's date index
together with one column per kept series. -/
def create_comparison_dataframe (ss : List (List (ℕ × ℚ))) (custom : Option ℕ) :
    List ℕ × List (List (Option ℚ)) :=
  let ssF := activeSeries ss
  if ssF.isEmpty then ([], [])
  else
    let common := commonStartDate ss custom
    let dates := filteredDates ss custom
    (dates, ssF.map (fun s =>
      forceCol dates common (ffillCol none (renormalizeCol dates common (rawCol s dates)))))

/-! ### Claim C3: the Adjustment Classifier -/

/-- C3, counterexample.  The claim requires BOTH a US country code AND a
5-letter ticker ending in X before an instrument is treated as a
domestically-adjusted fund.  The code classifies the Luxembourg
identifier LU1960219225 with ticker VFINX as a US mutual fund even though
its country code is not US: either condition alone suffices. -/
theorem C3_counterexample :
    is_us_mutual_fund "LU1960219225" (some "VFINX") = true ∧
    pyStartsWith "LU1960219225" "US" = false := by
  constructor <;> decide

/-- C3, amended.  `_is_us_mutual_fund` returns true iff the identifier is
non-empty and starts with US, OR the ticker is a non-empty 5-letter code
ending in X (a disjunction, not a conjunction); and only when both
conditions fail does the Yahoo fetch path build an unadjusted frame
(raw close with separate distributions). -/
theorem C3_amended (isin : String) (ticker : Option String) :
    (is_us_mutual_fund isin ticker = true ↔
      ((pyNonempty isin && pyStartsWith isin "US") = true ∨
       ∃ t, ticker = some t ∧
         (pyNonempty t && (pyLen t == 5) && pyEndsWith t "X") = true)) ∧
    (is_us_mutual_fund isin ticker = false →
      ∀ (h : YHist) (f : TRFrame),
        yahooSmart h (is_us_mutual_fund isin ticker) = some f →
        f.isAdjustedCol = some false) := by
  constructor
  · unfold is_us_mutual_fund
    by_cases hc : (pyNonempty isin && pyStartsWith isin "US") = true
    · simp [hc]
    · rw [if_neg hc]
      cases ticker with
      | none => simp [hc]
      | some t => simp [hc]
  · intro hfalse h f hsf
    rw [hfalse] at hsf
    unfold yahooSmart at hsf
    by_cases he : h.rows.isEmpty
    · rw [if_pos he] at hsf; exact absurd hsf (by simp)
    · rw [if_neg he, if_neg (by simp)] at hsf
      rw [← Option.some.inj hsf]

/-- C3, witness for the amended theorem at a concrete input: the
Luxembourg identifier LU0097089360 with no ticker is not classified as a
US mutual fund, and its Yahoo fetch produces an unadjusted frame. -/
theorem C3_amended_witness :
    (⟨[⟨some 1, some 0, some 0⟩], some false⟩ : TRFrame).isAdjustedCol
      = some false :=
  (C3_amended "LU0097089360" none).2 (by decide)
    ⟨[⟨some 1, none, some 0, some 0⟩], true, true, true⟩
    ⟨[⟨some 1, some 0, some 0⟩], some false⟩ (by decide)

/-! ### Claim C1: direct total return vs adjusted-price reconstruction -/

/-- Ex-dividend consistency of one day: if the loop guard holds and the
day carries a positive distribution, the price dropped by more than 1%.
On such days the two multiplier rules coincide. -/
def exDivHead (p? c? : Option ℚ) (dist : ℚ) : Bool :=
  match p?, c? with
  | some p, some c =>
      if p ≠ 0 ∧ 0 < dist then decide ((c - p) / p < -(1 / 100)) else true
  | _, _ => true

/-- Ex-dividend consistency of a row sequence relative to the preceding
price. -/
def exDivOkB : Option ℚ → List TRRow → Bool
  | _, [] => true
  | p?, r :: rs => exDivHead p? r.price (distOf r) && exDivOkB r.price rs

/-- Ex-dividend consistency of a whole DataFrame. -/
def exDivOkRows : List TRRow → Bool
  | [] => true
  | r0 :: rs => exDivOkB r0.price rs

theorem trStepUnadj_eq_adjStep (p? : Option ℚ) (r : TRRow) (acc : Option ℚ)
    (hok : exDivHead p? r.price (distOf r) = true) :
    trStepUnadj p? r acc = adjStep p? r.price (distOf r) acc := by
  unfold trStepUnadj adjStep
  match p?, hr : r.price with
  | none, _ => rfl
  | some p, none => rfl
  | some p, some c =>
      rw [hr] at hok
      have hok2 : (if p ≠ 0 ∧ 0 < distOf r
          then decide ((c - p) / p < -(1 / 100)) else true) = true := hok
      show (if p ≠ 0 then
              acc.map (fun t => t * ((if 0 < distOf r then c + distOf r else c) / p))
            else acc)
          = (if p ≠ 0 then
              acc.map (fun t =>
                t * (if 0 < distOf r then
                       if (c - p) / p < -(1 / 100) then (c + distOf r) / p else c / p
                     else c / p))
            else acc)
      by_cases hp : p ≠ 0
      · rw [if_pos hp, if_pos hp]
        by_cases hd : 0 < distOf r
        · rw [if_pos ⟨hp, hd⟩] at hok2
          rw [if_pos hd, if_pos hd, if_pos (of_decide_eq_true hok2)]
        · rw [if_neg hd, if_neg hd]
      · rw [if_neg hp, if_neg hp]

theorem trLoop_eq_adjLoop (rs : List TRRow) (p? acc : Option ℚ)
    (hok : exDivOkB p? rs = true) :
    trLoop trStepUnadj p? acc rs =
      adjLoop p? acc (rs.map (fun r => (r.price, distOf r))) := by
  induction rs generalizing p? acc with
  | nil => rfl
  | cons r rs ih =>
      have hok2 : (exDivHead p? r.price (distOf r) && exDivOkB r.price rs) = true := hok
      rw [Bool.and_eq_true] at hok2
      show trStepUnadj p? r acc
            :: trLoop trStepUnadj r.price (trStepUnadj p? r acc) rs
          = adjStep p? r.price (distOf r) acc
            :: adjLoop r.price (adjStep p? r.price (distOf r) acc)
                (rs.map (fun r => (r.price, distOf r)))
      rw [trStepUnadj_eq_adjStep p? r acc hok2.1, ih r.price _ hok2.2]

theorem combineDist_map (l : List TRRow) :
    combineDist (l.map (fun r => r.dividend)) (l.map (fun r => r.capitalGain))
      = l.map distOf := by
  induction l with
  | nil => rfl
  | cons r rs ih =>
      show distOf r
            :: combineDist (rs.map (fun r => r.dividend)) (rs.map (fun r => r.capitalGain))
          = distOf r :: rs.map distOf
      rw [ih]

/-- C1, counterexample.  A positive-distribution day whose price ROSE
(prev 100, curr 101, distribution 1, change +1%, no more-than-1% drop):
the claim says `calculate_total_return` then uses the bare multiplier
101/100, as `_calculate_adj_close_manual` does; the code instead adds the
distribution unconditionally and produces 102, so the two day-by-day
multiplier logics differ. -/
theorem C1_counterexample :
    calculate_total_return
        ⟨[⟨some 100, some 0, some 0⟩, ⟨some 101, some 1, some 0⟩], some false⟩
      = [some 100, some 102] ∧
    calcAdjCloseManual [some 100, some 101] [some 0, some 1] [some 0, some 0]
      = [some 100, some 101] ∧
    calculate_total_return
        ⟨[⟨some 100, some 0, some 0⟩, ⟨some 101, some 1, some 0⟩], some false⟩
      ≠ calcAdjCloseManual [some 100, some 101] [some 0, some 1] [some 0, some 0] := by
  refine ⟨?_, ?_, ?_⟩
  · norm_num [calculate_total_return, trLoop, trStepUnadj, distOf]
  · norm_num [calcAdjCloseManual, adjLoop, adjStep, combineDist]
  · norm_num [calculate_total_return, calcAdjCloseManual, trLoop, adjLoop,
      trStepUnadj, adjStep, distOf, combineDist]

/-- C1, amended.  On unadjusted data the direct computation
`calculate_total_return` adds the distribution on EVERY positive-
distribution day, with no price-drop test; it agrees with the
reconstruction `_calculate_adj_close_manual` exactly on series where
every positive-distribution day (with a valid previous price) saw the
price drop by more than 1% — and the counterexample shows they differ
otherwise. -/
theorem C1_amended (f : TRFrame) (hadj : f.isAdjustedCol.getD false = false)
    (hok : exDivOkRows f.rows = true) :
    calculate_total_return f =
      calcAdjCloseManual (f.rows.map (fun r => r.price))
        (f.rows.map (fun r => r.dividend))
        (f.rows.map (fun r => r.capitalGain)) := by
  obtain ⟨rows, adj⟩ := f
  cases rows with
  | nil => rfl
  | cons r0 rs =>
      have hok2 : exDivOkB r0.price rs = true := hok
      have hadj2 : adj.getD false = false := hadj
      have hlhs : calculate_total_return ⟨r0 :: rs, adj⟩
          = r0.price :: trLoop trStepUnadj r0.price r0.price rs := by
        show r0.price
              :: trLoop (if adj.getD false then trStepAdj else trStepUnadj)
                r0.price r0.price rs
            = r0.price :: trLoop trStepUnadj r0.price r0.price rs
        rw [hadj2, if_neg Bool.false_ne_true]
      have hrhs : calcAdjCloseManual ((r0 :: rs).map (fun r => r.price))
            ((r0 :: rs).map (fun r => r.dividend))
            ((r0 :: rs).map (fun r => r.capitalGain))
          = r0.price
              :: adjLoop r0.price r0.price (rs.map (fun r => (r.price, distOf r))) := by
        show r0.price
              :: adjLoop r0.price r0.price
                ((rs.map (fun r => r.price)).zip
                  ((combineDist ((r0 :: rs).map (fun r => r.dividend))
                    ((r0 :: rs).map (fun r => r.capitalGain))).drop 1))
            = _
        rw [combineDist_map, List.map_cons, List.drop_one, List.tail_cons,
          List.zip_map']
      rw [hlhs, hrhs]
      exact congrArg (List.cons r0.price) (trLoop_eq_adjLoop rs r0.price r0.price hok2)

/-- C1, witness for the amended theorem: on a series whose only
distribution day dropped from 100 to 95 (a 5% drop), the direct total
return and the manual reconstruction coincide. -/
theorem C1_amended_witness :
    calculate_total_return
        ⟨[⟨some 100, some 0, some 0⟩, ⟨some 95, some 2, some 0⟩], some false⟩
      = calcAdjCloseManual [some 100, some 95] [some 0, some 2] [some 0, some 0] := by
  have h := C1_amended
    ⟨[⟨some 100, some 0, some 0⟩, ⟨some 95, some 2, some 0⟩], some false⟩
    (by decide) (by norm_num [exDivOkRows, exDivOkB, exDivHead, distOf])
  simpa using h

/-! ### Claim C10: totality of calculate_total_return -/

theorem trLoop_length (step : Option ℚ → TRRow → Option ℚ → Option ℚ)
    (p? acc : Option ℚ) (rs : List TRRow) :
    (trLoop step p? acc rs).length = rs.length := by
  induction rs generalizing p? acc with
  | nil => rfl
  | cons r rs ih => simp [trLoop, ih]

theorem trLoop_getElem?_succ (step : Option ℚ → TRRow → Option ℚ → Option ℚ)
    (rs : List TRRow) (p? acc : Option ℚ) (i : ℕ) (ri r2 : TRRow)
    (ti : Option ℚ) (h1 : rs[i]? = some ri) (h2 : rs[i+1]? = some r2)
    (h3 : (trLoop step p? acc rs)[i]? = some ti) :
    (trLoop step p? acc rs)[i+1]? = some (step ri.price r2 ti) := by
  induction rs generalizing p? acc i with
  | nil => cases h1
  | cons r rs ih =>
      cases i with
      | zero =>
          have hri : r = ri := by simpa using h1
          subst hri
          have hacc : step p? r acc = ti := by simpa [trLoop] using h3
          have h2b : rs[0]? = some r2 := by simpa using h2
          cases rs with
          | nil => cases h2b
          | cons rb rbs =>
              have hrb : rb = r2 := by simpa using h2b
              subst hrb
              simp [trLoop, hacc]
      | succ i =>
          have h1b : rs[i]? = some ri := by simpa using h1
          have h2b : rs[i+1]? = some r2 := by simpa using h2
          have h3b : (trLoop step r.price (step p? r acc) rs)[i]? = some ti := by
            simpa [trLoop] using h3
          have := ih r.price (step p? r acc) i h1b h2b h3b
          simpa [trLoop] using this

theorem trStepAdj_carry (p? : Option ℚ) (r : TRRow) (acc : Option ℚ)
    (hbad : p? = none ∨ p? = some 0 ∨ r.price = none) :
    trStepAdj p? r acc = acc := by
  unfold trStepAdj
  rcases hbad with rfl | rfl | hr
  · rfl
  · cases hc : r.price with
    | none => rfl
    | some c =>
        show (if (0 : ℚ) ≠ 0 then acc.map (fun t => t * (c / 0)) else acc) = acc
        rw [if_neg (by norm_num)]
  · rw [hr]
    cases p? <;> rfl

theorem trStepUnadj_carry (p? : Option ℚ) (r : TRRow) (acc : Option ℚ)
    (hbad : p? = none ∨ p? = some 0 ∨ r.price = none) :
    trStepUnadj p? r acc = acc := by
  unfold trStepUnadj
  rcases hbad with rfl | rfl | hr
  · rfl
  · cases hc : r.price with
    | none => rfl
    | some c =>
        show (if (0 : ℚ) ≠ 0 then
              acc.map (fun t => t * ((if 0 < distOf r then c + distOf r else c) / 0))
            else acc) = acc
        rw [if_neg (by norm_num)]
  · rw [hr]
    cases p? <;> rfl

/-- C10, confirmed.  `calculate_total_return` is total: it returns one
value per input row, and on any day whose loop guard fails — previous
price NaN or zero, or current price NaN — the previous cumulative value
is carried forward unchanged, so no division by zero is ever taken. -/
theorem C10_theorem (f : TRFrame) :
    (calculate_total_return f).length = f.rows.length ∧
    ∀ (j : ℕ) (rPrev rCur : TRRow),
      f.rows[j]? = some rPrev → f.rows[j+1]? = some rCur →
      (rPrev.price = none ∨ rPrev.price = some 0 ∨ rCur.price = none) →
      (calculate_total_return f)[j+1]? = (calculate_total_return f)[j]? := by
  obtain ⟨rows, adj⟩ := f
  cases rows with
  | nil => exact ⟨rfl, fun j rPrev rCur h1 => by cases h1⟩
  | cons r0 rs =>
      have hout : calculate_total_return ⟨r0 :: rs, adj⟩
          = r0.price :: trLoop (if adj.getD false then trStepAdj else trStepUnadj)
              r0.price r0.price rs := rfl
      set step := if adj.getD false then trStepAdj else trStepUnadj with hstepdef
      have hcarry : ∀ (p? : Option ℚ) (r : TRRow) (acc : Option ℚ),
          (p? = none ∨ p? = some 0 ∨ r.price = none) → step p? r acc = acc := by
        intro p? r acc hbad
        rw [hstepdef]
        cases adj.getD false with
        | true => simpa using trStepAdj_carry p? r acc hbad
        | false => simpa using trStepUnadj_carry p? r acc hbad
      constructor
      · rw [hout]
        simp [trLoop_length]
      · intro j rPrev rCur h1 h2 hbad
        rw [hout]
        cases j with
        | zero =>
            have hr0 : r0 = rPrev := by simpa using h1
            subst hr0
            have h2b : rs[0]? = some rCur := by simpa using h2
            cases rs with
            | nil => cases h2b
            | cons rb rbs =>
                have hrb : rb = rCur := by simpa using h2b
                subst hrb
                simp [trLoop, hcarry r0.price rb r0.price hbad]
        | succ j =>
            have h1b : rs[j]? = some rPrev := by simpa using h1
            have h2b : rs[j+1]? = some rCur := by simpa using h2
            have hj : j < rs.length := by
              have := List.getElem?_eq_some_iff.mp h1b
              exact this.choose
            have hjt : j < (trLoop step r0.price r0.price rs).length := by
              rw [trLoop_length]; exact hj
            obtain ⟨ti, hti⟩ : ∃ ti, (trLoop step r0.price r0.price rs)[j]? = some ti :=
              ⟨_, List.getElem?_eq_getElem hjt⟩
            have hsucc := trLoop_getElem?_succ step rs r0.price r0.price j rPrev rCur ti
              h1b h2b hti
            rw [List.getElem?_cons_succ, List.getElem?_cons_succ, hsucc, hti,
              hcarry rPrev.price rCur ti hbad]

/-- C10, witness: on a concrete series whose middle price is NaN, the
cumulative value of day 1 is carried to day 2, and the output has one
value per input date. -/
theorem C10_witness :
    (calculate_total_return
        ⟨[⟨some 100, some 0, some 0⟩, ⟨none, some 0, some 0⟩,
          ⟨some 50, some 0, some 0⟩], some false⟩).length = 3 ∧
    (calculate_total_return
        ⟨[⟨some 100, some 0, some 0⟩, ⟨none, some 0, some 0⟩,
          ⟨some 50, some 0, some 0⟩], some false⟩)[2]?
      = (calculate_total_return
        ⟨[⟨some 100, some 0, some 0⟩, ⟨none, some 0, some 0⟩,
          ⟨some 50, some 0, some 0⟩], some false⟩)[1]? :=
  ⟨(C10_theorem ⟨[⟨some 100, some 0, some 0⟩, ⟨none, some 0, some 0⟩,
      ⟨some 50, some 0, some 0⟩], some false⟩).1,
   (C10_theorem ⟨[⟨some 100, some 0, some 0⟩, ⟨none, some 0, some 0⟩,
      ⟨some 50, some 0, some 0⟩], some false⟩).2 1
      ⟨none, some 0, some 0⟩ ⟨some 50, some 0, some 0⟩
      (by decide) (by decide) (Or.inl rfl)⟩

/-! ### Claim C7: total return dominates price return on unadjusted data -/

theorem trLoop_unadj_ge (rs : List TRRow) (p a : ℚ) (hp : 0 < p) (ha : 0 < a)
    (hpos : ∀ r ∈ rs, 0 < r.price.getD 0)
    (hdist : ∀ r ∈ rs, 0 ≤ distOf r) :
    ∀ (i : ℕ) (r : TRRow), rs[i]? = some r →
      ∃ t : ℚ, (trLoop trStepUnadj (some p) (some a) rs)[i]? = some (some t) ∧
        0 < t ∧ a * r.price.getD 0 ≤ t * p := by
  induction rs generalizing p a with
  | nil => intro i r h; cases h
  | cons r0 rs ih =>
      intro i r hi
      have hp0 : 0 < r0.price.getD 0 := hpos r0 (by simp)
      obtain ⟨c, hc⟩ : ∃ c, r0.price = some c := by
        cases hr : r0.price with
        | none => rw [hr] at hp0; norm_num at hp0
        | some c => exact ⟨c, rfl⟩
      have hcpos : 0 < c := by rw [hc] at hp0; simpa using hp0
      have hstep : trStepUnadj (some p) r0 (some a)
          = some (a * ((if 0 < distOf r0 then c + distOf r0 else c) / p)) := by
        unfold trStepUnadj
        rw [hc]
        show (if p ≠ 0 then
              Option.map
                (fun t => t * ((if 0 < distOf r0 then c + distOf r0 else c) / p))
                (some a)
            else some a) = _
        rw [if_pos (ne_of_gt hp)]
        rfl
      obtain ⟨X, hX, hcX, hXpos⟩ : ∃ X : ℚ,
          trStepUnadj (some p) r0 (some a) = some (a * (X / p)) ∧ c ≤ X ∧ 0 < X := by
        by_cases hd : 0 < distOf r0
        · exact ⟨c + distOf r0, by rw [hstep, if_pos hd], by linarith, by linarith⟩
        · exact ⟨c, by rw [hstep, if_neg hd], le_refl c, hcpos⟩
      have hacc2 : 0 < a * (X / p) := by positivity
      cases i with
      | zero =>
          have hr0 : r0 = r := by simpa using hi
          subst hr0
          refine ⟨a * (X / p), ?_, hacc2, ?_⟩
          · simp [trLoop, hX]
          · rw [hc]
            have he : a * (X / p) * p = a * X := by
              field_simp
            rw [he]
            show a * c ≤ a * X
            exact mul_le_mul_of_nonneg_left hcX (le_of_lt ha)
      | succ i =>
          have hi2 : rs[i]? = some r := by simpa using hi
          obtain ⟨t, ht, htpos, hle⟩ := ih c (a * (X / p)) hcpos hacc2
            (fun r2 hr2 => hpos r2 (by simp [hr2]))
            (fun r2 hr2 => hdist r2 (by simp [hr2])) i r hi2
          refine ⟨t, ?_, htpos, ?_⟩
          · show (trStepUnadj (some p) r0 (some a)
                :: trLoop trStepUnadj r0.price (trStepUnadj (some p) r0 (some a))
                  rs)[i+1]?
              = some (some t)
            rw [List.getElem?_cons_succ, hX, hc]
            exact ht
          · have hqpos : 0 < r.price.getD 0 :=
              hpos r (List.mem_cons_of_mem r0 (List.getElem?_mem hi2))
            have h1 : a * (X / p) * r.price.getD 0 * p ≤ t * c * p :=
              mul_le_mul_of_nonneg_right hle (le_of_lt hp)
            have h2 : a * (X / p) * r.price.getD 0 * p = a * X * r.price.getD 0 := by
              field_simp
            have key : (a * r.price.getD 0) * c ≤ (t * p) * c := by
              calc (a * r.price.getD 0) * c = a * r.price.getD 0 * c := by ring
                _ ≤ a * r.price.getD 0 * X :=
                    mul_le_mul_of_nonneg_left hcX (by positivity)
                _ = a * X * r.price.getD 0 := by ring
                _ = a * (X / p) * r.price.getD 0 * p := h2.symm
                _ ≤ t * c * p := h1
                _ = (t * p) * c := by ring
            exact le_of_mul_le_mul_right key hcpos

/-- C7, confirmed.  For an unadjusted series with positive well-defined
prices, non-negative distributions and at least one positive-distribution
day, the cumulative total return of `calculate_total_return` satisfies
total_return_ratio ≥ price_return_ratio, both ratios being last value
over first value. -/
theorem C7_theorem (f : TRFrame)
    (hadj : f.isAdjustedCol.getD false = false)
    (hpos : ∀ r ∈ f.rows, 0 < r.price.getD 0)
    (hdist : ∀ r ∈ f.rows, 0 ≤ r.dividend.getD 0 ∧ 0 ≤ r.capitalGain.getD 0)
    (hone : ∃ r ∈ f.rows, 0 < distOf r) (hne : f.rows ≠ []) :
    ∃ p0 pn tn : ℚ,
      (f.rows.head?).map (fun r => r.price) = some (some p0) ∧
      (f.rows.getLast?).map (fun r => r.price) = some (some pn) ∧
      (calculate_total_return f).head? = some (some p0) ∧
      (calculate_total_return f).getLast? = some (some tn) ∧
      pn / p0 ≤ tn / p0 := by
  obtain ⟨rows, adj⟩ := f
  cases rows with
  | nil => exact absurd rfl hne
  | cons r0 rs =>
      have hadj2 : adj.getD false = false := hadj
      have hp0 : 0 < r0.price.getD 0 := hpos r0 (by simp)
      obtain ⟨p0, hc0⟩ : ∃ c, r0.price = some c := by
        cases hr : r0.price with
        | none => rw [hr] at hp0; norm_num at hp0
        | some c => exact ⟨c, rfl⟩
      have hp0pos : 0 < p0 := by rw [hc0] at hp0; simpa using hp0
      have hout : calculate_total_return ⟨r0 :: rs, adj⟩
          = r0.price :: trLoop trStepUnadj r0.price r0.price rs := by
        show r0.price
            :: trLoop (if adj.getD false then trStepAdj else trStepUnadj)
              r0.price r0.price rs
            = _
        rw [hadj2, if_neg Bool.false_ne_true]
      cases rs with
      | nil =>
          refine ⟨p0, p0, p0, by simp [hc0], by simp [hc0], ?_, ?_, le_refl _⟩
          · rw [hout]; simp [hc0]
          · rw [hout]; simp [trLoop, hc0]
      | cons r1 rs2 =>
          have hlast : ∃ rl : TRRow, (r1 :: rs2)[rs2.length]? = some rl ∧
              (r0 :: r1 :: rs2).getLast? = some rl := by
            have hlen : rs2.length < (r1 :: rs2).length := by simp
            refine ⟨(r1 :: rs2)[rs2.length], List.getElem?_eq_getElem hlen, ?_⟩
            rw [List.getLast?_eq_getElem?]
            simp
          obtain ⟨rl, hrl, hrlast⟩ := hlast
          have hpn : 0 < rl.price.getD 0 :=
            hpos rl (List.mem_cons_of_mem r0 (List.getElem?_mem hrl))
          obtain ⟨pn, hcn⟩ : ∃ c, rl.price = some c := by
            cases hr : rl.price with
            | none => rw [hr] at hpn; norm_num at hpn
            | some c => exact ⟨c, rfl⟩
          have hpnpos : 0 < pn := by rw [hcn] at hpn; simpa using hpn
          obtain ⟨tn, htn, htnpos, htle⟩ :=
            trLoop_unadj_ge (r1 :: rs2) p0 p0 hp0pos hp0pos
              (fun r2 hr2 => hpos r2 (List.mem_cons_of_mem r0 hr2))
              (fun r2 hr2 => by
                have := hdist r2 (List.mem_cons_of_mem r0 hr2)
                unfold distOf
                linarith [this.1, this.2])
              rs2.length rl hrl
          refine ⟨p0, pn, tn, by simp [hc0], ?_, ?_, ?_, ?_⟩
          · rw [hrlast]; simp [hcn]
          · rw [hout]; simp [hc0]
          · rw [hout, List.getLast?_eq_getElem?]
            have hlen2 : (r0.price :: trLoop trStepUnadj r0.price r0.price
                (r1 :: rs2)).length = rs2.length + 2 := by
              simp [trLoop_length]
            rw [hlen2]
            show (r0.price :: trLoop trStepUnadj r0.price r0.price
                (r1 :: rs2))[rs2.length + 1]? = some (some tn)
            rw [List.getElem?_cons_succ]
            rw [hc0]
            exact htn
          · rw [div_le_div_iff_of_pos_right hp0pos]
            have hmul : p0 * pn ≤ tn * p0 := by
              simpa [hcn] using htle
            nlinarith [hmul, hp0pos]

/-- C7, witness: a two-day unadjusted series with a dividend of 2 paid on
a drop from 100 to 95; the theorem applies and yields
total_return_ratio ≥ price_return_ratio. -/
theorem C7_witness :
    ∃ p0 pn tn : ℚ,
      (([⟨some 100, some 0, some 0⟩, ⟨some 95, some 2, some 0⟩] :
          List TRRow).head?).map (fun r => r.price) = some (some p0) ∧
      (([⟨some 100, some 0, some 0⟩, ⟨some 95, some 2, some 0⟩] :
          List TRRow).getLast?).map (fun r => r.price) = some (some pn) ∧
      (calculate_total_return
        ⟨[⟨some 100, some 0, some 0⟩, ⟨some 95, some 2, some 0⟩],
          some false⟩).head? = some (some p0) ∧
      (calculate_total_return
        ⟨[⟨some 100, some 0, some 0⟩, ⟨some 95, some 2, some 0⟩],
          some false⟩).getLast? = some (some tn) ∧
      pn / p0 ≤ tn / p0 :=
  C7_theorem
    ⟨[⟨some 100, some 0, some 0⟩, ⟨some 95, some 2, some 0⟩], some false⟩
    (by decide) (by norm_num) (by norm_num)
    ⟨⟨some 95, some 2, some 0⟩, by norm_num [distOf]⟩ (by decide)

/-! ### Claim C8: the daily-jump consistency check -/

theorem maxAbs_gt_iff (l : List ℚ) (c : ℚ) (hc : 0 ≤ c) :
    maxAbs l > c ↔ ∃ r ∈ l, |r| > c := by
  induction l with
  | nil =>
      show (0 : ℚ) > c ↔ _
      simp only [List.not_mem_nil, false_and, exists_false, iff_false, gt_iff_lt,
        not_lt]
      exact hc
  | cons x xs ih =>
      show max |x| (maxAbs xs) > c ↔ _
      rw [gt_iff_lt, lt_max_iff]
      constructor
      · rintro (h | h)
        · exact ⟨x, by simp, h⟩
        · obtain ⟨r, hr, hrc⟩ := ih.mp h
          exact ⟨r, by simp [hr], hrc⟩
      · rintro ⟨r, hr, hrc⟩
        rcases List.mem_cons.mp hr with rfl | hr2
        · exact Or.inl hrc
        · exact Or.inr (ih.mpr ⟨r, hr2, hrc⟩)

theorem suspiciousEmpty_iff (l : List ℚ) (c : ℚ) :
    (l.filter (fun r => decide (|r| > c))).isEmpty = true ↔ ∀ r ∈ l, |r| ≤ c := by
  simp [List.isEmpty_iff, List.filter_eq_nil_iff, not_lt]

/-- C8, confirmed.  On a series with at least two valid (non-NaN,
positive) prices, `validate_consistency` fails exactly when some
day-over-day change exceeds 20% in absolute value; a maximum absolute
change in (10%, 20%] passes with the soft warning; changes all within
10% pass cleanly with no warning. -/
theorem C8_theorem (rows : List (Option ℚ))
    (h2 : 2 ≤ (rows.filterMap id).length)
    (_hpos : ∀ p ∈ rows.filterMap id, 0 < p) :
    ((validate_consistency rows).passed = false ↔
      ∃ r ∈ dailyReturns (rows.filterMap id), |r| > 1/5) ∧
    (((∀ r ∈ dailyReturns (rows.filterMap id), |r| ≤ 1/5) ∧
      ∃ r ∈ dailyReturns (rows.filterMap id), |r| > 1/10) →
      validate_consistency rows = ⟨true, true⟩) ∧
    ((∀ r ∈ dailyReturns (rows.filterMap id), |r| ≤ 1/10) →
      validate_consistency rows = ⟨true, false⟩) := by
  have hlen : ¬ rows.length < 2 := by
    have := List.length_filterMap_le id rows
    omega
  have hlen2 : ¬ (rows.filterMap id).length < 2 := by omega
  by_cases hb : ((dailyReturns (rows.filterMap id)).filter
      (fun r => decide (|r| > 1/10))).isEmpty = true
  · have hall : ∀ r ∈ dailyReturns (rows.filterMap id), |r| ≤ 1/10 :=
      (suspiciousEmpty_iff (dailyReturns (rows.filterMap id)) (1/10)).mp hb
    have hval : validate_consistency rows = ⟨true, false⟩ := by
      unfold validate_consistency
      rw [if_neg hlen, if_neg hlen2]
      simp only [hb, Bool.not_true, Bool.false_eq_true, if_false]
    refine ⟨?_, ?_, fun _ => hval⟩
    · rw [hval]
      constructor
      · intro h; simp at h
      · rintro ⟨r, hr, hrc⟩
        exact absurd (hall r hr) (by linarith)
    · rintro ⟨-, r, hr, hrc⟩
      exact absurd (hall r hr) (by linarith)
  · have hex : ∃ r ∈ dailyReturns (rows.filterMap id), |r| > 1/10 := by
      by_contra hno
      push_neg at hno
      exact hb ((suspiciousEmpty_iff (dailyReturns (rows.filterMap id)) (1/10)).mpr hno)
    rw [Bool.not_eq_true] at hb
    by_cases hm : maxAbs (dailyReturns (rows.filterMap id)) > 1/5
    · have hval : validate_consistency rows = ⟨false, false⟩ := by
        unfold validate_consistency
        rw [if_neg hlen, if_neg hlen2]
        simp only [hb, Bool.not_false, if_true, if_pos hm]
      obtain ⟨r, hr, hrc⟩ :=
        (maxAbs_gt_iff (dailyReturns (rows.filterMap id)) (1/5) (by norm_num)).mp hm
      refine ⟨?_, ?_, ?_⟩
      · rw [hval]
        exact ⟨fun _ => ⟨r, hr, hrc⟩, fun _ => rfl⟩
      · rintro ⟨hle, -⟩
        exact absurd (hle r hr) (by linarith)
      · intro hle
        exact absurd (hle r hr) (by linarith)
    · have hval : validate_consistency rows = ⟨true, true⟩ := by
        unfold validate_consistency
        rw [if_neg hlen, if_neg hlen2]
        simp only [hb, Bool.not_false, if_true, if_neg hm]
      refine ⟨?_, fun _ => hval, ?_⟩
      · rw [hval]
        constructor
        · intro h; simp at h
        · rintro ⟨r, hr, hrc⟩
          exact absurd ((maxAbs_gt_iff (dailyReturns (rows.filterMap id)) (1/5)
            (by norm_num)).mpr ⟨r, hr, hrc⟩) hm
      · intro hle
        obtain ⟨r, hr, hrc⟩ := hex
        exact absurd (hle r hr) (by linarith)

/-- C8, witness: the series 100 → 105 (a single 5% change) passes cleanly
with no warning. -/
theorem C8_witness :
    validate_consistency [some 100, some 105] = ⟨true, false⟩ :=
  (C8_theorem [some 100, some 105] (by decide) (by decide)).2.2
    (by norm_num [dailyReturns, abs_le])

/-! ### Claim C9: Beta computation and its observation threshold -/

theorem dailyReturns_length (l : List ℚ) : (dailyReturns l).length = l.length - 1 := by
  induction l with
  | nil => rfl
  | cons x xs ih =>
      cases xs with
      | nil => rfl
      | cons y rest =>
          show ((y - x) / x :: dailyReturns (y :: rest)).length = (y :: rest).length
          rw [List.length_cons, ih]
          simp

theorem alignedPairs_nil_right (fund : List (ℕ × ℚ)) :
    alignedPairs fund [] = [] := by
  simp [alignedPairs, lookupDate]

/-- C9, counterexample.  Two identical 30-observation series: 30 aligned
daily observations exist, yet `calculate_beta` returns None — the
`pct_change().dropna()` step leaves only 29 returns, which fails the
second ≥ 30 check, so 30 aligned observations are NOT enough. -/
theorem C9_counterexample :
    (alignedPairs ((List.range 30).map (fun i => (i, if i + 1 == 30 then (2 : ℚ) else 1)))
        ((List.range 30).map (fun i => (i, if i + 1 == 30 then (2 : ℚ) else 1)))).length = 30 ∧
    calculate_beta ((List.range 30).map (fun i => (i, if i + 1 == 30 then (2 : ℚ) else 1)))
        ((List.range 30).map (fun i => (i, if i + 1 == 30 then (2 : ℚ) else 1))) = none := by
  constructor <;> decide

/-- C9, amended.  Beta is unavailable (None) exactly when fewer than 31
aligned observations exist (30 observations yield only 29 daily returns,
failing the ≥ 30 returns check) or the benchmark return variance is not
positive; otherwise it equals covariance of the aligned daily returns
over benchmark return variance, rounded to two decimals. -/
theorem C9_amended (fund bench : List (ℕ × ℚ)) :
    (calculate_beta fund bench = none ↔
      ((alignedPairs fund bench).length < 31 ∨
        sampleVariance (dailyReturns ((alignedPairs fund bench).map Prod.snd)) ≤ 0)) ∧
    (calculate_beta fund bench = none ∨
      calculate_beta fund bench =
        some (round2 (sampleCov
          (dailyReturns ((alignedPairs fund bench).map Prod.fst))
          (dailyReturns ((alignedPairs fund bench).map Prod.snd)) /
          sampleVariance (dailyReturns ((alignedPairs fund bench).map Prod.snd))))) := by
  by_cases hfb : (fund.isEmpty || bench.isEmpty) = true
  · have hnone : calculate_beta fund bench = none := by
      unfold calculate_beta
      rw [if_pos hfb]
    have hlen : (alignedPairs fund bench).length < 31 := by
      rw [Bool.or_eq_true] at hfb
      rcases hfb with hf | hb2
      · rw [List.isEmpty_iff] at hf
        rw [hf]
        simp [alignedPairs]
      · rw [List.isEmpty_iff] at hb2
        rw [hb2, alignedPairs_nil_right]
        simp
    exact ⟨⟨fun _ => Or.inl hlen, fun _ => hnone⟩, Or.inl hnone⟩
  · have hval : calculate_beta fund bench
        = (if (alignedPairs fund bench).length < 30 then none
           else if (dailyReturns ((alignedPairs fund bench).map Prod.fst)).length < 30
             then none
           else if 0 < sampleVariance (dailyReturns ((alignedPairs fund bench).map Prod.snd))
             then some (round2 (sampleCov
               (dailyReturns ((alignedPairs fund bench).map Prod.fst))
               (dailyReturns ((alignedPairs fund bench).map Prod.snd)) /
               sampleVariance (dailyReturns ((alignedPairs fund bench).map Prod.snd))))
             else none) := by
      unfold calculate_beta
      rw [if_neg hfb]
    rw [hval]
    by_cases h30 : (alignedPairs fund bench).length < 30
    · rw [if_pos h30]
      exact ⟨⟨fun _ => Or.inl (by omega), fun _ => rfl⟩, Or.inl rfl⟩
    · rw [if_neg h30]
      by_cases h31 : (alignedPairs fund bench).length < 31
      · have hfr : (dailyReturns ((alignedPairs fund bench).map Prod.fst)).length < 30 := by
          rw [dailyReturns_length, List.length_map]
          omega
        rw [if_pos hfr]
        exact ⟨⟨fun _ => Or.inl h31, fun _ => rfl⟩, Or.inl rfl⟩
      · have hfr : ¬ (dailyReturns ((alignedPairs fund bench).map Prod.fst)).length < 30 := by
          rw [dailyReturns_length, List.length_map]
          omega
        rw [if_neg hfr]
        by_cases hv : 0 < sampleVariance (dailyReturns ((alignedPairs fund bench).map Prod.snd))
        · rw [if_pos hv]
          refine ⟨⟨fun h => Option.noConfusion h, fun h => ?_⟩, Or.inr rfl⟩
          rcases h with h | h
          · exact absurd h h31
          · exact absurd hv (not_lt.mpr h)
        · rw [if_neg hv]
          exact ⟨⟨fun _ => Or.inr (not_lt.mp hv), fun _ => rfl⟩, Or.inl rfl⟩

/-! ### Claim C6: adjusted series carry zero distributions -/

/-- C6, counterexample.  The cache-backfill path marks a cached series
adjusted (its recorded source contains "EOD Historical Data") while a
Dividends column already present in the cached payload — here with a
non-zero entry 5 — is kept unchanged, so an is_adjusted = true series
with a non-zero dividend is produced. -/
theorem C6_counterexample :
    (backfillCached ⟨[some 100, some 101], some [some 5, some 0],
        some [some 0, some 0], none⟩ "EOD Historical Data API").isAdjustedCol
      = some true ∧
    ∃ r ∈ (backfillCached ⟨[some 100, some 101], some [some 5, some 0],
        some [some 0, some 0], none⟩ "EOD Historical Data API").rows,
      r.dividend ≠ some 0 := by
  constructor <;> decide

/-- C6, amended.  The fetch paths themselves keep the invariant: every
frame built by `_get_yahoo_data_smart` or `_get_eod_total_return` with
is_adjusted = true has zero Dividends and Capital Gains in every row; the
cache backfill also writes zero columns — but only when those columns are
absent from the cached payload (a present non-zero column survives, see
the counterexample). -/
theorem C6_amended :
    (∀ (h : YHist) (b : Bool) (f : TRFrame), yahooSmart h b = some f →
      f.isAdjustedCol = some true →
      ∀ r ∈ f.rows, r.dividend = some 0 ∧ r.capitalGain = some 0) ∧
    (∀ (resp : EodResp) (f : TRFrame), eodFrame resp = some f →
      f.isAdjustedCol = some true →
      ∀ r ∈ f.rows, r.dividend = some 0 ∧ r.capitalGain = some 0) ∧
    (∀ (c : CachedDF) (source : String), c.divCol = none → c.cgCol = none →
      ∀ r ∈ (backfillCached c source).rows,
        r.dividend = some 0 ∧ r.capitalGain = some 0) := by
  refine ⟨?_, ?_, ?_⟩
  · intro h b f hsf hadjT r hr
    unfold yahooSmart at hsf
    by_cases he : h.rows.isEmpty
    · rw [if_pos he] at hsf; cases hsf
    · rw [if_neg he] at hsf
      cases b with
      | false =>
          rw [if_neg (by simp)] at hsf
          rw [← Option.some.inj hsf] at hadjT
          exact absurd hadjT (by simp)
      | true =>
          rw [if_pos rfl] at hsf
          by_cases hac : h.hasAdjCloseCol = true
          · rw [if_neg (by simp [hac])] at hsf
            rw [← Option.some.inj hsf] at hr
            replace hr : r ∈ h.rows.map
                (fun r => (⟨r.adjClose, some 0, some 0⟩ : TRRow)) := hr
            obtain ⟨a, -, rfl⟩ := List.mem_map.mp hr
            exact ⟨rfl, rfl⟩
          · rw [if_pos (by simp [hac])] at hsf
            rw [← Option.some.inj hsf] at hr
            replace hr : r ∈ (calcAdjCloseManual (h.rows.map (fun r => r.close))
                (h.rows.map (yahooDiv h)) (h.rows.map (yahooCg h))).map
                (fun p => (⟨p, some 0, some 0⟩ : TRRow)) := hr
            obtain ⟨a, -, rfl⟩ := List.mem_map.mp hr
            exact ⟨rfl, rfl⟩
  · intro resp f hsf hadjT r hr
    unfold eodFrame at hsf
    by_cases he : resp.rows.isEmpty
    · rw [if_pos he] at hsf; cases hsf
    · rw [if_neg he] at hsf
      by_cases hac : resp.hasAdjustedClose = true
      · rw [if_pos hac] at hsf
        rw [← Option.some.inj hsf] at hr
        replace hr : r ∈ resp.rows.map
            (fun p => (⟨p.2, some 0, some 0⟩ : TRRow)) := hr
        obtain ⟨a, -, rfl⟩ := List.mem_map.mp hr
        exact ⟨rfl, rfl⟩
      · rw [if_neg hac] at hsf
        by_cases hc : resp.hasClose = true
        · rw [if_pos hc] at hsf
          rw [← Option.some.inj hsf] at hadjT
          exact absurd hadjT (by simp)
        · rw [if_neg hc] at hsf; cases hsf
  · intro c source hdiv hcg r hr
    unfold backfillCached at hr
    rw [hdiv, hcg] at hr
    replace hr : r ∈ (List.range c.prices.length).map (fun i =>
        (⟨(c.prices[i]?).getD none,
          ((List.replicate c.prices.length (some (0 : ℚ)))[i]?).getD none,
          ((List.replicate c.prices.length (some (0 : ℚ)))[i]?).getD none⟩ :
          TRRow)) := hr
    obtain ⟨i, hi, rfl⟩ := List.mem_map.mp hr
    rw [List.mem_range] at hi
    constructor <;>
      simp [List.getElem?_replicate, if_pos hi]

/-- C6, witness for the amended theorem: the Yahoo path with a native
Adj Close column produces a row with zero dividend and capital gain. -/
theorem C6_amended_witness :
    (⟨some 4, some 0, some 0⟩ : TRRow).dividend = some 0 ∧
    (⟨some 4, some 0, some 0⟩ : TRRow).capitalGain = some 0 :=
  C6_amended.1 ⟨[⟨some 3, some 4, some 9, some 9⟩], true, true, true⟩ true
    ⟨[⟨some 4, some 0, some 0⟩], some true⟩ (by decide) (by decide)
    ⟨some 4, some 0, some 0⟩ (by decide)

/-! ### Claim C2: the Source Resolver cascade -/

/-- A 15-record frame, the result the premium API returns in the C2
counterexample. -/
def cexFrameA : TRFrame :=
  ⟨List.replicate 15 ⟨some 1, some 0, some 0⟩, some true⟩

/-- A different 15-record frame, the result the ticker lookup returns in
the C2 counterexample. -/
def cexFrameB : TRFrame :=
  ⟨List.replicate 15 ⟨some 2, some 0, some 0⟩, some false⟩

/-- The C2 counterexample environment: the premium API is configured and
succeeds with `cexFrameA`, a ticker mapping exists and the ticker lookup
returns `cexFrameB`. -/
def cexEnvC2 : FetchEnv :=
  ⟨true, some cexFrameA, some "PRHSX", some cexFrameB,
    fun _ => none, none, none, none⟩

/-- C2, counterexample.  The premium API (tried first) succeeds with a
non-empty 15-record series, yet the final result is the ticker lookup's
series: Method 1 overwrites `data` unconditionally whenever a ticker
mapping exists, so a later source replaces an earlier source's
successful result. -/
theorem C2_counterexample :
    nonemptyDF (some cexFrameA) = true ∧
    (getHistoricalFetch "US87281Y1029" cexEnvC2).1 = some cexFrameB ∧
    cexFrameB ≠ cexFrameA := by
  refine ⟨by decide, by decide, by decide⟩

/-- C2, amended.  The resolver tries the sources in the fixed order
premium API, ticker lookup, exchange suffixes, identifier direct, IR
suffix, scraping — but the ticker lookup overwrites the premium API's
result unconditionally whenever a ticker mapping exists.  Short-circuit
does hold otherwise: with no ticker mapping a successful premium result
is returned untouched, and a non-empty ticker-lookup result is final.
(The more-than-10-records success test applies only to the
exchange-suffix, direct-identifier and IR attempts; the premium API and
ticker lookup only require non-emptiness.) -/
theorem C2_amended (env : FetchEnv) (isin : String) :
    (∀ d : TRFrame, env.tickerMap = none → env.eodKeySet = true →
      env.eodResult = some d → d.rows.isEmpty = false →
      getHistoricalFetch isin env = (some d, some "EOD Historical Data API")) ∧
    (∀ (t : String) (d : TRFrame), env.tickerMap = some t →
      env.yahooTicker = some d → d.rows.isEmpty = false →
      (getHistoricalFetch isin env).1 = some d) ∧
    (∀ d : TRFrame, env.eodKeySet = false → env.tickerMap = none →
      env.yahooExchange "L" = some d → d.rows.length > 10 →
      d.rows.isEmpty = false →
      getHistoricalFetch isin env
        = (some d, some ("Yahoo Finance (" ++ isin ++ "." ++ "L" ++ ")"))) ∧
    (env.eodKeySet = false → env.tickerMap = none →
      (∀ e, env.yahooExchange e = none) → env.yahooDirect = none →
      env.yahooIR = none →
      getHistoricalFetch isin env = (env.scrapeResult, none)) := by
  refine ⟨?_, ?_, ?_, ?_⟩
  · intro d htm hkey heod hne
    simp [getHistoricalFetch, htm, hkey, heod, nonemptyDF, hne]
  · intro t d htm hyt hne
    simp [getHistoricalFetch, htm, hyt, nonemptyDF, hne]
  · intro d hkey htm hex hlen hne
    simp [getHistoricalFetch, exchangesList, exchangeLoop, htm, hkey, hex,
      nonemptyDF, bigDF, hne, hlen]
  · intro hkey htm hex hdir hir
    by_cases hpn : pyNonempty isin = true <;>
      simp [getHistoricalFetch, exchangesList, exchangeLoop, htm, hkey, hex,
        hdir, hir, nonemptyDF, bigDF, hpn]

/-- C2, witness for the amended theorem: with no ticker mapping, a
successful premium-API result is returned untouched and tagged. -/
theorem C2_amended_witness :
    getHistoricalFetch "LU0097089360"
        ⟨true, some cexFrameA, none, none, fun _ => none, none, none, none⟩
      = (some cexFrameA, some "EOD Historical Data API") :=
  (C2_amended ⟨true, some cexFrameA, none, none, fun _ => none, none, none, none⟩
      "LU0097089360").1 cexFrameA rfl rfl rfl (by decide)

/-! ### Claim C4: cache corruption handling in get_historical_data -/

/-- The C4 environment: every source fails except the scraping fallback,
which returns a one-record frame. -/
def cexEnvC4 : FetchEnv :=
  ⟨false, none, none, none, fun _ => none, none, none,
    some ⟨[⟨some 1, some 0, some 0⟩], some false⟩⟩

/-- C4, counterexample.  A fresh cache entry whose payload fails to
deserialize makes `get_historical_data` return None (no data) WITHOUT
refetching — while a true miss (absent/stale file) refetches and obtains
a series — and a cache file whose JSON cannot be loaded raises to the
caller, contradicting both halves of the claim. -/
theorem C4_counterexample :
    getHistoricalData (.entry ⟨none, "corrupted"⟩) "LU0097089360" cexEnvC4
      = .value none ∧
    getHistoricalData .absent "LU0097089360" cexEnvC4
      = .value (some ⟨[⟨some 1, some 0, some 0⟩], some false⟩) ∧
    getHistoricalData .unparsable "LU0097089360" cexEnvC4 = .raised := by
  refine ⟨by decide, by decide, rfl⟩

/-- C4, amended.  Only an absent or stale cache file behaves as a miss
(the caller proceeds to the source cascade); a fresh entry whose data
payload fails both DataFrame-parse attempts makes `get_historical_data`
return None without refetching — a different outcome from the miss
whenever the sources have data — and a cache file whose JSON cannot be
parsed raises to the caller. -/
theorem C4_amended (isin : String) (env : FetchEnv) (src : String) :
    getHistoricalData .absent isin env = .value (getHistoricalFetch isin env).1 ∧
    getHistoricalData (.entry ⟨none, src⟩) isin env = .value none ∧
    getHistoricalData .unparsable isin env = .raised ∧
    (∀ d : TRFrame, (getHistoricalFetch isin env).1 = some d →
      getHistoricalData (.entry ⟨none, src⟩) isin env ≠
        getHistoricalData .absent isin env) := by
  refine ⟨rfl, rfl, rfl, ?_⟩
  intro d hd hEq
  rw [show getHistoricalData (.entry ⟨none, src⟩) isin env
        = .value none from rfl,
    show getHistoricalData .absent isin env
        = .value (getHistoricalFetch isin env).1 from rfl, hd] at hEq
  simp at hEq

/-- C4, witness for the amended theorem: with the scraping fallback
succeeding, the corrupt-payload outcome differs from the miss outcome. -/
theorem C4_amended_witness :
    getHistoricalData (.entry ⟨none, "corrupted"⟩) "LU0097089360" cexEnvC4 ≠
      getHistoricalData .absent "LU0097089360" cexEnvC4 :=
  (C4_amended "LU0097089360" cexEnvC4 "corrupted").2.2.2
    ⟨[⟨some 1, some 0, some 0⟩], some false⟩ (by decide)

/-! ### Claim C5: common start date and base-100 normalization -/

theorem listMax_mem (l : List ℕ) (hne : l ≠ []) : listMax l ∈ l := by
  induction l with
  | nil => exact absurd rfl hne
  | cons x xs ih =>
      cases xs with
      | nil => simp [listMax]
      | cons y ys =>
          show max x (listMax (y :: ys)) ∈ x :: y :: ys
          rcases max_choice x (listMax (y :: ys)) with h | h
          · rw [h]; exact List.mem_cons_self x (y :: ys)
          · rw [h]; exact List.mem_cons_of_mem x (ih (by simp))

theorem le_listMax (l : List ℕ) : ∀ d ∈ l, d ≤ listMax l := by
  induction l with
  | nil => intro d h; cases h
  | cons x xs ih =>
      intro d hd
      rcases List.mem_cons.mp hd with rfl | h
      · exact le_max_left _ _
      · exact le_trans (ih d h) (le_max_right _ _)

theorem mem_insertDate (d a : ℕ) (l : List ℕ) :
    a ∈ insertDate d l ↔ a = d ∨ a ∈ l := by
  induction l with
  | nil => simp [insertDate]
  | cons x xs ih =>
      unfold insertDate
      by_cases h1 : d < x
      · rw [if_pos h1]; simp
      · rw [if_neg h1]
        by_cases h2 : d = x
        · rw [if_pos h2]; subst h2; simp
        · rw [if_neg h2]; simp [ih]; tauto

theorem mem_foldr_insertDate (d : ℕ) (L : List ℕ) (h : d ∈ L) :
    d ∈ L.foldr insertDate [] := by
  induction L with
  | nil => cases h
  | cons x xs ih =>
      show d ∈ insertDate x (xs.foldr insertDate [])
      rw [mem_insertDate]
      rcases List.mem_cons.mp h with rfl | h2
      · exact Or.inl rfl
      · exact Or.inr (ih h2)

theorem renormalizeCol_isSome (dates : List ℕ) (common : ℕ)
    (col : List (Option ℚ)) (i : ℕ) (o : Option ℚ) (h : col[i]? = some o)
    (ho : o.isSome = true) :
    ∃ o2, (renormalizeCol dates common col)[i]? = some o2 ∧ o2.isSome = true := by
  unfold renormalizeCol
  cases hf : findFirstSome col with
  | none => exact ⟨o, h, ho⟩
  | some p =>
      obtain ⟨jx, v⟩ := p
      show ∃ o2, (if common ≤ (dates[jx]?).getD 0 ∧ v ≠ 0 then
          (col.map (Option.map (fun x => x / v * BASE_VALUE))).set jx (some BASE_VALUE)
        else col)[i]? = some o2 ∧ o2.isSome = true
      by_cases hc : common ≤ (dates[jx]?).getD 0 ∧ v ≠ 0
      · rw [if_pos hc]
        have hilt : i < col.length := (List.getElem?_eq_some_iff.mp h).choose
        by_cases hij : jx = i
        · subst hij
          refine ⟨some BASE_VALUE, ?_, rfl⟩
          exact List.getElem?_set_self (by simpa using hilt)
        · refine ⟨o.map (fun x => x / v * BASE_VALUE), ?_, by simpa using ho⟩
          rw [List.getElem?_set_ne hij, List.getElem?_map, h]
          rfl
      · rw [if_neg hc]
        exact ⟨o, h, ho⟩

theorem ffillCol_isSome (last : Option ℚ) (col : List (Option ℚ)) (i : ℕ)
    (o : Option ℚ) (h : col[i]? = some o) (ho : o.isSome = true) :
    ∃ o2, (ffillCol last col)[i]? = some o2 ∧ o2.isSome = true := by
  induction col generalizing last i with
  | nil => cases h
  | cons x xs ih =>
      cases i with
      | zero =>
          have hx : x = o := by simpa using h
          subst hx
          cases hxv : x with
          | none => rw [hxv] at ho; simp at ho
          | some w => exact ⟨some w, by simp [ffillCol], rfl⟩
      | succ i =>
          have h2 : xs[i]? = some o := by simpa using h
          cases x with
          | none =>
              obtain ⟨o2, h3, h4⟩ := ih last i h2
              exact ⟨o2, by simpa [ffillCol] using h3, h4⟩
          | some w =>
              obtain ⟨o2, h3, h4⟩ := ih (some w) i h2
              exact ⟨o2, by simpa [ffillCol] using h3, h4⟩

theorem zip_getElem? (l1 : List ℕ) (l2 : List (Option ℚ)) (i : ℕ) (a : ℕ)
    (b : Option ℚ) (h1 : l1[i]? = some a) (h2 : l2[i]? = some b) :
    (l1.zip l2)[i]? = some (a, b) := by
  induction l1 generalizing l2 i with
  | nil => cases h1
  | cons x xs ih =>
      cases l2 with
      | nil => cases h2
      | cons y ys =>
          cases i with
          | zero =>
              have hx : x = a := by simpa using h1
              have hy : y = b := by simpa using h2
              subst hx; subst hy
              simp
          | succ i =>
              simpa using ih ys i (by simpa using h1) (by simpa using h2)

theorem forceCol_at_common (dates : List ℕ) (common : ℕ)
    (col : List (Option ℚ)) (hmem : common ∈ dates) (i : ℕ)
    (hdi : dates[i]? = some common) (o : Option ℚ) (hci : col[i]? = some o)
    (ho : o.isSome = true) :
    (forceCol dates common col)[i]? = some (some BASE_VALUE) := by
  unfold forceCol
  rw [if_pos hmem, List.getElem?_map, zip_getElem? dates col i common o hdi hci]
  simp [ho]

/-- C5, confirmed.  With no override date, the comparison table's common
start date is the latest of the kept series' first dates (it is one of
them and dominates all of them), that date appears in the table's index,
and every instrument with an observation at that date holds exactly the
base value 100 there. -/
theorem C5_theorem (ss : List (List (ℕ × ℚ))) (j : ℕ) (s : List (ℕ × ℚ))
    (hj : (activeSeries ss)[j]? = some s) (v : ℚ)
    (hv : lookupDate s (commonStartDate ss none) = some v) :
    (commonStartDate ss none ∈ startDates ss ∧
      ∀ d ∈ startDates ss, d ≤ commonStartDate ss none) ∧
    (∃ i : ℕ, (create_comparison_dataframe ss none).1[i]?
      = some (commonStartDate ss none)) ∧
    (∀ i : ℕ, (create_comparison_dataframe ss none).1[i]?
        = some (commonStartDate ss none) →
      ∃ col : List (Option ℚ),
        (create_comparison_dataframe ss none).2[j]? = some col ∧
        col[i]? = some (some (100 : ℚ))) := by
  have hsmem : s ∈ activeSeries ss := List.getElem?_mem hj
  have hsne : s ≠ [] := by
    have := (List.mem_filter.mp hsmem).2
    simpa [List.isEmpty_iff] using this
  obtain ⟨p, hp⟩ : ∃ p, s.head? = some p := by
    cases hs : s with
    | nil => exact absurd hs hsne
    | cons a l => exact ⟨a, rfl⟩
  have hstart : p.1 ∈ startDates ss :=
    List.mem_filterMap.mpr ⟨s, hsmem, by rw [hp]; rfl⟩
  have hstartne : startDates ss ≠ [] := List.ne_nil_of_mem hstart
  have hcm : commonStartDate ss none = listMax (startDates ss) := rfl
  have hpart1 : commonStartDate ss none ∈ startDates ss ∧
      ∀ d ∈ startDates ss, d ≤ commonStartDate ss none := by
    rw [hcm]
    exact ⟨listMax_mem _ hstartne, le_listMax _⟩
  have hcu : commonStartDate ss none ∈ unionDates ss := by
    obtain ⟨s2, hs2, hh2⟩ := List.mem_filterMap.mp hpart1.1
    obtain ⟨p2, hp2, hp2e⟩ := Option.map_eq_some.mp hh2
    unfold unionDates
    apply mem_foldr_insertDate
    apply List.mem_flatten.mpr
    refine ⟨s2.map Prod.fst, List.mem_map_of_mem _ hs2, ?_⟩
    rw [← hp2e]
    exact List.mem_map_of_mem _ (List.mem_of_mem_head? hp2)
  have hcf : commonStartDate ss none ∈ filteredDates ss none :=
    List.mem_filter.mpr ⟨hcu, by simp⟩
  have hne2 : activeSeries ss ≠ [] := List.ne_nil_of_mem hsmem
  have hcc : create_comparison_dataframe ss none
      = (filteredDates ss none, (activeSeries ss).map (fun s =>
          forceCol (filteredDates ss none) (commonStartDate ss none)
            (ffillCol none (renormalizeCol (filteredDates ss none)
              (commonStartDate ss none) (rawCol s (filteredDates ss none)))))) := by
    unfold create_comparison_dataframe
    rw [if_neg (by simpa [List.isEmpty_iff] using hne2)]
  refine ⟨hpart1, ?_, ?_⟩
  · rw [hcc]
    exact List.mem_iff_getElem?.mp hcf
  · intro i hdi
    rw [hcc] at hdi ⊢
    have hdi2 : (filteredDates ss none)[i]? = some (commonStartDate ss none) := hdi
    refine ⟨forceCol (filteredDates ss none) (commonStartDate ss none)
        (ffillCol none (renormalizeCol (filteredDates ss none)
          (commonStartDate ss none) (rawCol s (filteredDates ss none)))), ?_, ?_⟩
    · rw [List.getElem?_map, hj]
      rfl
    · have hraw : (rawCol s (filteredDates ss none))[i]? = some (some v) := by
        unfold rawCol
        rw [List.getElem?_map, hdi2]
        simpa using hv
      obtain ⟨o2, ho2, ho2s⟩ := renormalizeCol_isSome (filteredDates ss none)
        (commonStartDate ss none) (rawCol s (filteredDates ss none)) i (some v)
        hraw rfl
      obtain ⟨o3, ho3, ho3s⟩ := ffillCol_isSome none
        (renormalizeCol (filteredDates ss none) (commonStartDate ss none)
          (rawCol s (filteredDates ss none))) i o2 ho2 ho2s
      exact forceCol_at_common (filteredDates ss none) (commonStartDate ss none)
        (ffillCol none (renormalizeCol (filteredDates ss none)
          (commonStartDate ss none) (rawCol s (filteredDates ss none))))
        hcf i hdi2 o3 ho3 ho3s

/-- C5, witness: two series, one starting at date 0 and one at date 1;
the common start date resolves to 1 and both instruments show exactly 100
there. -/
theorem C5_witness :
    (commonStartDate [[(0, (50 : ℚ)), (1, 60)], [(1, (80 : ℚ)), (2, 90)]] none
        ∈ startDates [[(0, (50 : ℚ)), (1, 60)], [(1, (80 : ℚ)), (2, 90)]] ∧
      ∀ d ∈ startDates [[(0, (50 : ℚ)), (1, 60)], [(1, (80 : ℚ)), (2, 90)]],
        d ≤ commonStartDate [[(0, (50 : ℚ)), (1, 60)], [(1, (80 : ℚ)), (2, 90)]] none) ∧
    (∃ i : ℕ, (create_comparison_dataframe
        [[(0, (50 : ℚ)), (1, 60)], [(1, (80 : ℚ)), (2, 90)]] none).1[i]?
      = some (commonStartDate
          [[(0, (50 : ℚ)), (1, 60)], [(1, (80 : ℚ)), (2, 90)]] none)) ∧
    (∀ i : ℕ, (create_comparison_dataframe
        [[(0, (50 : ℚ)), (1, 60)], [(1, (80 : ℚ)), (2, 90)]] none).1[i]?
        = some (commonStartDate
            [[(0, (50 : ℚ)), (1, 60)], [(1, (80 : ℚ)), (2, 90)]] none) →
      ∃ col : List (Option ℚ), (create_comparison_dataframe
          [[(0, (50 : ℚ)), (1, 60)], [(1, (80 : ℚ)), (2, 90)]] none).2[0]?
        = some col ∧ col[i]? = some (some (100 : ℚ))) :=
  C5_theorem [[(0, (50 : ℚ)), (1, 60)], [(1, (80 : ℚ)), (2, 90)]] 0
    [(0, (50 : ℚ)), (1, 60)] (by decide) 60 (by decide)

end AnalisiFondi
